import Mathlib

/-!
Verification of the okx-rs local order book core: the price ladder
(`src/book/mod.rs`, `OrderBook`) and the sequence reconciler
(`src/book/book_manager.rs`, `BookManager`).

Embedding notes.
* `rust_decimal::Decimal` prices and sizes are embedded as `Rat`: the code
  performs no arithmetic on them, only comparisons and equality, on which
  the embedding agrees exactly with the source type.
* The two `BTreeMap`s of `OrderBook` (`bids` keyed by `Reverse(Decimal)`,
  `asks` keyed by `Decimal`) are embedded as association lists kept in the
  map's iteration order: bids strictly descending by price, asks strictly
  ascending.  `iter().next()` becomes `List.head?`, `retain` becomes
  `List.filter`, `entry ... or_insert / set` becomes an order-preserving
  insert-or-overwrite, `remove` becomes a key filter.
* The wire levels carry decimal strings that the manager parses with
  `parse().unwrap()`; the embedding takes the already-parsed rationals
  (the claims under study concern well-formed numeric payloads).
* Rust panics (`expect`, `todo!`, `unreachable!`) are embedded as
  `Except.error` carrying the panic message, so that "the process dies
  here" is an observable outcome of the model.
* `BookUpdate.seq_id` is deserialized as an optional i64, but the manager
  compares it directly as an integer on every path; it is embedded as the
  integer the manager reads.
-/

namespace OkxBook

/-- Side of the book, from `api/v5/model.rs` (`Side::Buy`, `Side::Sell`). -/
inductive Side where
  | buy
  | sell
deriving DecidableEq, Repr

/-- One wire book level (`Level` in `api/v5/model.rs`), with its decimal
string fields already parsed.  The unused `orders` field is dropped. -/
structure Level where
  price : Rat
  size : Rat
deriving DecidableEq, Repr

/-- `Levels` in `api/v5/model.rs`: depth-1 and depth-5 fixed arrays or an
arbitrary-depth vector. -/
inductive Levels where
  | depth1 (l : Level)
  | depth5 (l0 l1 l2 l3 l4 : Level)
  | depths (ls : List Level)
deriving DecidableEq, Repr

/-- `Levels::iter` flattened to a list, in iteration order. -/
def Levels.toList : Levels → List Level
  | .depth1 l => [l]
  | .depth5 l0 l1 l2 l3 l4 => [l0, l1, l2, l3, l4]
  | .depths ls => ls

/-- The price ladder (`OrderBook` in `src/book/mod.rs`): `bids` in
descending price order (the `Reverse`-keyed `BTreeMap`'s iteration
order), `asks` in ascending price order. -/
structure OrderBook where
  bids : List (Rat × Rat)
  asks : List (Rat × Rat)
deriving DecidableEq, Repr

/-- Insert-or-overwrite into a descending-ordered association list,
mirroring `self.bids.entry(Reverse(price))` followed by a size write. -/
def insertDesc (p q : Rat) : List (Rat × Rat) → List (Rat × Rat)
  | [] => [(p, q)]
  | (k, v) :: rest =>
    if k < p then (p, q) :: (k, v) :: rest
    else if k = p then (p, q) :: rest
    else (k, v) :: insertDesc p q rest

/-- Insert-or-overwrite into an ascending-ordered association list,
mirroring `self.asks.entry(price)` followed by a size write. -/
def insertAsc (p q : Rat) : List (Rat × Rat) → List (Rat × Rat)
  | [] => [(p, q)]
  | (k, v) :: rest =>
    if p < k then (p, q) :: (k, v) :: rest
    else if k = p then (p, q) :: rest
    else (k, v) :: insertAsc p q rest

/-- `OrderBook::update_level`. -/
def update_level (b : OrderBook) (price size : Rat) (side : Side) : OrderBook :=
  match side with
  | .buy => { b with bids := insertDesc price size b.bids }
  | .sell => { b with asks := insertAsc price size b.asks }

/-- `OrderBook::remove_level`. -/
def remove_level (b : OrderBook) (price : Rat) (side : Side) : OrderBook :=
  match side with
  | .buy => { b with bids := b.bids.filter (fun kv => kv.1 != price) }
  | .sell => { b with asks := b.asks.filter (fun kv => kv.1 != price) }

/-- `OrderBook::handle_bbo`: `bids.retain(|k, _| k.0 <= price)` on the buy
side, `asks.retain(|k, _| *k >= price)` on the sell side.  The `size`
argument is taken as in the source and unused. -/
def handle_bbo (b : OrderBook) (price _size : Rat) (side : Side) : OrderBook :=
  match side with
  | .buy => { b with bids := b.bids.filter (fun kv => decide (kv.1 ≤ price)) }
  | .sell => { b with asks := b.asks.filter (fun kv => decide (price ≤ kv.1)) }

/-- `OrderBook::handle_level`: remove on non-positive size, otherwise
upsert; then, when the `bbo` flag is set, clamp the side. -/
def handle_level (b : OrderBook) (price size : Rat) (side : Side) (bbo : Bool) : OrderBook :=
  let b1 := if size ≤ 0 then remove_level b price side else update_level b price size side
  if bbo then handle_bbo b1 price size side else b1

/-- `OrderBook::best_bid`: first entry of the bid map. -/
def best_bid (b : OrderBook) : Option (Rat × Rat) :=
  b.bids.head?

/-- `OrderBook::best_ask`: first entry of the ask map. -/
def best_ask (b : OrderBook) : Option (Rat × Rat) :=
  b.asks.head?

/-- `OrderBook::crossed`: true when both sides are non-empty and the best
bid price is strictly greater than the best ask price. -/
def crossed (b : OrderBook) : Bool :=
  match best_bid b, best_ask b with
  | some (bid, _), some (ask, _) => decide (ask < bid)
  | _, _ => false

/-- `BookUpdateType` in `src/book/book_manager.rs`. -/
inductive BookUpdateType where
  | BBO
  | Diff
  | Snapshot
deriving DecidableEq, Repr

/-- `BookUpdate` in `api/v5/model.rs` (field order preserved; `checksum`,
`prev_seq_id` and `ts` are optional on the wire). -/
structure BookUpdate where
  checksum : Option Int
  seq_id : Int
  prev_seq_id : Option Int
  asks : Levels
  bids : Levels
  ts : Option Nat
deriving DecidableEq, Repr

/-- `BookManager` in `src/book/book_manager.rs`. -/
structure BookManager where
  book : OrderBook
  last_seq : Option Int
  last_exch_ts : Option Nat
deriving DecidableEq, Repr

/-- The `should_update` computation inside `BookManager::handle_book_update`:
on a tracked `last_seq`, drop equal and smaller sequence numbers and accept
larger ones; otherwise accept only a Snapshot. -/
def shouldUpdate (m : BookManager) (update : BookUpdate) (update_type : BookUpdateType) : Bool :=
  match m.last_seq with
  | some last_seq =>
    if update.seq_id = last_seq then false
    else if last_seq < update.seq_id then true
    else false
  | none => update_type = BookUpdateType.Snapshot

/-- Fold of `OrderBook::handle_level` (with the bbo flag off) over one
side's level list, as in the Snapshot/Diff loop of
`BookManager::handle_book_update`. -/
def apply_side (side : Side) (ls : List Level) (b : OrderBook) : OrderBook :=
  ls.foldl (fun acc l => handle_level acc l.price l.size side false) b

/-- The accepted-update block of `BookManager::handle_book_update`: record
the sequence number and exchange timestamp (panicking when the timestamp is
absent), then either imply depth from a depth-1 BBO pair (panicking on any
other shape) or apply every bid and ask level in order. -/
def applyUpdate (m : BookManager) (update : BookUpdate) (update_type : BookUpdateType) :
    Except String BookManager :=
  match update.ts with
  | none => .error "no ts"
  | some t =>
    if update_type = BookUpdateType.BBO then
      match update.bids, update.asks with
      | .depth1 bid, .depth1 ask =>
        .ok { book := handle_level (handle_level m.book bid.price bid.size .buy true)
                        ask.price ask.size .sell true,
              last_seq := some update.seq_id,
              last_exch_ts := some t }
      | _, _ => .error "not an bbo"
    else
      .ok { book := apply_side .sell update.asks.toList
                      (apply_side .buy update.bids.toList m.book),
            last_seq := some update.seq_id,
            last_exch_ts := some t }

/-- `BookManager::handle_book_update`.  The leading
`update.prev_seq_id.expect("no prev seq")` and the `todo!("unhandled seq
reset")` on a sequence reset are panics, embedded as errors; otherwise the
update is applied exactly when `should_update` holds and the returned flag
reports it. -/
def handle_book_update (m : BookManager) (update : BookUpdate)
    (update_type : BookUpdateType) : Except String (BookManager × Bool) :=
  match update.prev_seq_id with
  | none => .error "no prev seq"
  | some prev =>
    if update.seq_id < prev then .error "unhandled seq reset"
    else if shouldUpdate m update update_type then
      (applyUpdate m update update_type).map (fun m' => (m', true))
    else
      .ok (m, false)

/-- Price lookup in one side's association list (observer used by the
specification statements). -/
def lookupPx (p : Rat) : List (Rat × Rat) → Option Rat
  | [] => none
  | (k, v) :: rest => if k = p then some v else lookupPx p rest

/-- Price lookup on a chosen side of the ladder. -/
def lookupSide (b : OrderBook) (side : Side) (p : Rat) : Option Rat :=
  match side with
  | .buy => lookupPx p b.bids
  | .sell => lookupPx p b.asks

/-- Every stored level on the side has strictly positive size. -/
def posSide (l : List (Rat × Rat)) : Prop :=
  ∀ kv ∈ l, 0 < kv.2

/-- Both sides of the ladder store only strictly positive sizes. -/
def posBook (b : OrderBook) : Prop :=
  posSide b.bids ∧ posSide b.asks

/-- The bid list is strictly descending by price (the representation
invariant inherited from the `Reverse`-keyed `BTreeMap`). -/
def sortedDesc (l : List (Rat × Rat)) : Prop :=
  l.Chain' (fun a b => b.1 < a.1)

/-- The ask list is strictly ascending by price. -/
def sortedAsc (l : List (Rat × Rat)) : Prop :=
  l.Chain' (fun a b => a.1 < b.1)

/-- Run a stream of updates through the manager, recording for each event
the applied flag and the manager's `last_seq` right after it; the first
panic aborts the run. -/
def runTrace (m : BookManager) : List (BookUpdate × BookUpdateType) →
    Except String (List (Bool × Option Int))
  | [] => .ok []
  | (u, ty) :: rest =>
    match handle_book_update m u ty with
    | .error e => .error e
    | .ok (m', fl) => (runTrace m' rest).map (fun tr => (fl, m'.last_seq) :: tr)

/-- A well-shaped event: a previous sequence id no larger than its own
sequence id, a present timestamp, and — for BBO events — depth-1 level
arrays on both sides. -/
def wfEvent : BookUpdate × BookUpdateType → Prop
  | (u, ty) =>
    (∃ prev, u.prev_seq_id = some prev ∧ prev ≤ u.seq_id)
    ∧ u.ts.isSome
    ∧ (ty = BookUpdateType.BBO → (∃ l, u.bids = .depth1 l) ∧ (∃ l, u.asks = .depth1 l))

section Lemmas

variable {b : OrderBook} {p q s p' : Rat} {l rest : List (Rat × Rat)} {f : Bool}

theorem handle_level_buy_asks (b : OrderBook) (p s : Rat) (f : Bool) :
    (handle_level b p s .buy f).asks = b.asks := by
  unfold handle_level remove_level update_level handle_bbo
  by_cases hs : s ≤ 0 <;> cases f <;> simp [hs]

theorem handle_level_sell_bids (b : OrderBook) (p s : Rat) (f : Bool) :
    (handle_level b p s .sell f).bids = b.bids := by
  unfold handle_level remove_level update_level handle_bbo
  by_cases hs : s ≤ 0 <;> cases f <;> simp [hs]

theorem lookupPx_insertDesc_self (p q : Rat) (l : List (Rat × Rat)) :
    lookupPx p (insertDesc p q l) = some q := by
  induction l with
  | nil => simp [insertDesc, lookupPx]
  | cons kv rest ih =>
    obtain ⟨k, v⟩ := kv
    by_cases h1 : k < p
    · simp [insertDesc, h1, lookupPx]
    · by_cases h2 : k = p
      · simp [insertDesc, h1, h2, lookupPx]
      · simp [insertDesc, h1, h2, lookupPx, ih]

theorem lookupPx_insertAsc_self (p q : Rat) (l : List (Rat × Rat)) :
    lookupPx p (insertAsc p q l) = some q := by
  induction l with
  | nil => simp [insertAsc, lookupPx]
  | cons kv rest ih =>
    obtain ⟨k, v⟩ := kv
    by_cases h1 : p < k
    · simp [insertAsc, h1, lookupPx]
    · by_cases h2 : k = p
      · simp [insertAsc, h1, h2, lookupPx]
      · simp [insertAsc, h1, h2, lookupPx, ih]

theorem lookupPx_insertDesc_ne (q : Rat) (l : List (Rat × Rat)) (h : p' ≠ p) :
    lookupPx p' (insertDesc p q l) = lookupPx p' l := by
  induction l with
  | nil => simp [insertDesc, lookupPx, Ne.symm h]
  | cons kv rest ih =>
    obtain ⟨k, v⟩ := kv
    by_cases h1 : k < p
    · simp [insertDesc, h1, lookupPx, Ne.symm h]
    · by_cases h2 : k = p
      · subst h2
        simp [insertDesc, h1, lookupPx, Ne.symm h]
      · simp [insertDesc, h1, h2, lookupPx, ih]

theorem lookupPx_insertAsc_ne (q : Rat) (l : List (Rat × Rat)) (h : p' ≠ p) :
    lookupPx p' (insertAsc p q l) = lookupPx p' l := by
  induction l with
  | nil => simp [insertAsc, lookupPx, Ne.symm h]
  | cons kv rest ih =>
    obtain ⟨k, v⟩ := kv
    by_cases h1 : p < k
    · simp [insertAsc, h1, lookupPx, Ne.symm h]
    · by_cases h2 : k = p
      · subst h2
        simp [insertAsc, h1, lookupPx, Ne.symm h]
      · simp [insertAsc, h1, h2, lookupPx, ih]

theorem lookupPx_filter_self (p : Rat) (l : List (Rat × Rat)) :
    lookupPx p (l.filter (fun kv => kv.1 != p)) = none := by
  induction l with
  | nil => simp [lookupPx]
  | cons kv rest ih =>
    obtain ⟨k, v⟩ := kv
    by_cases h : k = p
    · simp [List.filter_cons, bne_iff_ne, h, ih]
    · simp [List.filter_cons, bne_iff_ne, h, lookupPx, ih]

theorem lookupPx_filter_ne (l : List (Rat × Rat)) (h : p' ≠ p) :
    lookupPx p' (l.filter (fun kv => kv.1 != p)) = lookupPx p' l := by
  induction l with
  | nil => simp
  | cons kv rest ih =>
    obtain ⟨k, v⟩ := kv
    by_cases hk : k = p
    · subst hk
      simp [List.filter_cons, bne_iff_ne, lookupPx, Ne.symm h, ih]
    · by_cases hk' : k = p'
      · subst hk'
        simp [List.filter_cons, bne_iff_ne, hk, lookupPx]
      · simp [List.filter_cons, bne_iff_ne, hk, lookupPx, hk', ih]

theorem filter_eq_self_of_lookup_none (l : List (Rat × Rat)) (h : lookupPx p l = none) :
    l.filter (fun kv => kv.1 != p) = l := by
  induction l with
  | nil => simp
  | cons kv rest ih =>
    obtain ⟨k, v⟩ := kv
    by_cases hk : k = p
    · simp [lookupPx, hk] at h
    · simp [lookupPx, hk] at h
      simp [List.filter_cons, bne_iff_ne, hk, ih h]

theorem head_filter_insertDesc (p q : Rat) (l : List (Rat × Rat)) :
    ((insertDesc p q l).filter (fun kv => decide (kv.1 ≤ p))).head? = some (p, q) := by
  induction l with
  | nil => simp [insertDesc]
  | cons kv rest ih =>
    obtain ⟨k, v⟩ := kv
    by_cases h1 : k < p
    · simp [insertDesc, h1, List.filter]
    · by_cases h2 : k = p
      · simp [insertDesc, h1, h2, List.filter]
      · have h3 : p < k := lt_of_le_of_ne (not_lt.mp h1) (Ne.symm h2)
        simp [insertDesc, h1, h2, List.filter, not_le.mpr h3, ih]

theorem head_filter_insertAsc (p q : Rat) (l : List (Rat × Rat)) :
    ((insertAsc p q l).filter (fun kv => decide (p ≤ kv.1))).head? = some (p, q) := by
  induction l with
  | nil => simp [insertAsc]
  | cons kv rest ih =>
    obtain ⟨k, v⟩ := kv
    by_cases h1 : p < k
    · simp [insertAsc, h1, List.filter]
    · by_cases h2 : k = p
      · simp [insertAsc, h1, h2, List.filter]
      · have h3 : k < p := lt_of_le_of_ne (not_lt.mp h1) h2
        simp [insertAsc, h1, h2, List.filter, not_le.mpr h3, ih]

end Lemmas

section PosLemmas

theorem posSide_filter (l : List (Rat × Rat)) (g : Rat × Rat → Bool) (h : posSide l) :
    posSide (l.filter g) := by
  intro kv hm
  exact h kv (List.mem_of_mem_filter hm)

theorem posSide_insertDesc (p q : Rat) (l : List (Rat × Rat)) (hq : 0 < q) (h : posSide l) :
    posSide (insertDesc p q l) := by
  induction l with
  | nil =>
    intro kv hm
    simp [insertDesc] at hm
    simp [hm, hq]
  | cons kv0 rest ih =>
    obtain ⟨k, v⟩ := kv0
    have hv : 0 < v := h (k, v) (by simp)
    have hrest : posSide rest := fun kv hm => h kv (List.mem_cons_of_mem _ hm)
    intro kv hm
    by_cases h1 : k < p
    · simp [insertDesc, h1] at hm
      rcases hm with hm | hm | hm
      · simp [hm, hq]
      · simp [hm, hv]
      · exact hrest kv hm
    · by_cases h2 : k = p
      · simp [insertDesc, h1, h2] at hm
        rcases hm with hm | hm
        · simp [hm, hq]
        · exact hrest kv hm
      · simp only [insertDesc, if_neg h1, if_neg h2] at hm
        rcases List.mem_cons.mp hm with hm | hm
        · simp [hm, hv]
        · exact ih hrest kv hm

theorem posSide_insertAsc (p q : Rat) (l : List (Rat × Rat)) (hq : 0 < q) (h : posSide l) :
    posSide (insertAsc p q l) := by
  induction l with
  | nil =>
    intro kv hm
    simp [insertAsc] at hm
    simp [hm, hq]
  | cons kv0 rest ih =>
    obtain ⟨k, v⟩ := kv0
    have hv : 0 < v := h (k, v) (by simp)
    have hrest : posSide rest := fun kv hm => h kv (List.mem_cons_of_mem _ hm)
    intro kv hm
    by_cases h1 : p < k
    · simp [insertAsc, h1] at hm
      rcases hm with hm | hm | hm
      · simp [hm, hq]
      · simp [hm, hv]
      · exact hrest kv hm
    · by_cases h2 : k = p
      · simp [insertAsc, h1, h2] at hm
        rcases hm with hm | hm
        · simp [hm, hq]
        · exact hrest kv hm
      · simp only [insertAsc, if_neg h1, if_neg h2] at hm
        rcases List.mem_cons.mp hm with hm | hm
        · simp [hm, hv]
        · exact ih hrest kv hm

theorem posBook_handle_level (b : OrderBook) (p s : Rat) (side : Side) (f : Bool)
    (h : posBook b) : posBook (handle_level b p s side f) := by
  obtain ⟨hb, ha⟩ := h
  unfold handle_level remove_level update_level handle_bbo
  by_cases hs : s ≤ 0 <;> cases side <;> cases f <;>
    simp [hs] <;>
    constructor <;>
    first
      | exact posSide_filter _ _ hb
      | exact posSide_filter _ _ ha
      | exact hb
      | exact ha
      | exact posSide_filter _ _ (posSide_insertDesc p s _ (not_le.mp hs) hb)
      | exact posSide_insertDesc p s _ (not_le.mp hs) hb
      | exact posSide_filter _ _ (posSide_insertAsc p s _ (not_le.mp hs) ha)
      | exact posSide_insertAsc p s _ (not_le.mp hs) ha

theorem posBook_apply_side (side : Side) (ls : List Level) (b : OrderBook)
    (h : posBook b) : posBook (apply_side side ls b) := by
  induction ls generalizing b with
  | nil => exact h
  | cons lv rest ih =>
    exact ih _ (posBook_handle_level b lv.price lv.size side false h)

theorem posBook_applyUpdate (m : BookManager) (u : BookUpdate) (ty : BookUpdateType)
    (m' : BookManager) (h : posBook m.book) (hok : applyUpdate m u ty = .ok m') :
    posBook m'.book := by
  unfold applyUpdate at hok
  split at hok
  · simp at hok
  · split at hok
    · split at hok
      · simp only [Except.ok.injEq] at hok
        rw [← hok]
        exact posBook_handle_level _ _ _ _ _ (posBook_handle_level _ _ _ _ _ h)
      · simp at hok
    · simp only [Except.ok.injEq] at hok
      rw [← hok]
      exact posBook_apply_side _ _ _ (posBook_apply_side _ _ _ h)

theorem posBook_handle_book_update (m : BookManager) (u : BookUpdate) (ty : BookUpdateType)
    (m' : BookManager) (fl : Bool) (h : posBook m.book)
    (hok : handle_book_update m u ty = .ok (m', fl)) : posBook m'.book := by
  unfold handle_book_update at hok
  split at hok
  · simp at hok
  · split at hok
    · simp at hok
    · split at hok
      · cases ha : applyUpdate m u ty with
        | error e => rw [ha] at hok; simp [Except.map] at hok
        | ok mm =>
          rw [ha] at hok
          simp only [Except.map, Except.ok.injEq, Prod.mk.injEq] at hok
          rw [← hok.1]
          exact posBook_applyUpdate m u ty mm h ha
      · simp only [Except.ok.injEq, Prod.mk.injEq] at hok
        rw [← hok.1]
        exact h

end PosLemmas

section FrameLemmas

theorem apply_side_buy_asks (ls : List Level) (b : OrderBook) :
    (apply_side .buy ls b).asks = b.asks := by
  induction ls generalizing b with
  | nil => rfl
  | cons lv rest ih =>
    show (apply_side .buy rest (handle_level b lv.price lv.size .buy false)).asks = b.asks
    rw [ih, handle_level_buy_asks]

theorem apply_side_sell_bids (ls : List Level) (b : OrderBook) :
    (apply_side .sell ls b).bids = b.bids := by
  induction ls generalizing b with
  | nil => rfl
  | cons lv rest ih =>
    show (apply_side .sell rest (handle_level b lv.price lv.size .sell false)).bids = b.bids
    rw [ih, handle_level_sell_bids]

theorem lookupPx_handle_level_buy (b : OrderBook) (p p' s : Rat) (h : p ≠ p') :
    lookupPx p (handle_level b p' s .buy false).bids = lookupPx p b.bids := by
  unfold handle_level remove_level update_level
  by_cases hs : s ≤ 0 <;> simp [hs]
  · exact lookupPx_filter_ne _ h
  · exact lookupPx_insertDesc_ne _ _ h

theorem lookupPx_handle_level_sell (b : OrderBook) (p p' s : Rat) (h : p ≠ p') :
    lookupPx p (handle_level b p' s .sell false).asks = lookupPx p b.asks := by
  unfold handle_level remove_level update_level
  by_cases hs : s ≤ 0 <;> simp [hs]
  · exact lookupPx_filter_ne _ h
  · exact lookupPx_insertAsc_ne _ _ h

theorem lookupPx_apply_side_buy (ls : List Level) (b : OrderBook) (p : Rat)
    (h : p ∉ ls.map Level.price) :
    lookupPx p (apply_side .buy ls b).bids = lookupPx p b.bids := by
  induction ls generalizing b with
  | nil => rfl
  | cons lv rest ih =>
    simp only [List.map_cons, List.mem_cons, not_or] at h
    show lookupPx p (apply_side .buy rest (handle_level b lv.price lv.size .buy false)).bids
        = lookupPx p b.bids
    rw [ih _ h.2, lookupPx_handle_level_buy _ _ _ _ h.1]

theorem lookupPx_apply_side_sell (ls : List Level) (b : OrderBook) (p : Rat)
    (h : p ∉ ls.map Level.price) :
    lookupPx p (apply_side .sell ls b).asks = lookupPx p b.asks := by
  induction ls generalizing b with
  | nil => rfl
  | cons lv rest ih =>
    simp only [List.map_cons, List.mem_cons, not_or] at h
    show lookupPx p (apply_side .sell rest (handle_level b lv.price lv.size .sell false)).asks
        = lookupPx p b.asks
    rw [ih _ h.2, lookupPx_handle_level_sell _ _ _ _ h.1]

end FrameLemmas

section ManagerLemmas

theorem handle_book_update_eq (m : BookManager) (u : BookUpdate) (ty : BookUpdateType)
    (prev : Int) (hp : u.prev_seq_id = some prev) (hnlt : ¬ u.seq_id < prev) :
    handle_book_update m u ty =
      if shouldUpdate m u ty then (applyUpdate m u ty).map (fun m' => (m', true))
      else .ok (m, false) := by
  unfold handle_book_update
  rw [hp]
  simp only [if_neg hnlt]

theorem applyUpdate_not_bbo (m : BookManager) (u : BookUpdate) (ty : BookUpdateType)
    (t : Nat) (hts : u.ts = some t) (hty : ty ≠ .BBO) :
    applyUpdate m u ty =
      .ok ⟨apply_side .sell u.asks.toList (apply_side .buy u.bids.toList m.book),
           some u.seq_id, some t⟩ := by
  unfold applyUpdate
  rw [hts]
  simp only [if_neg hty]

theorem applyUpdate_bbo (m : BookManager) (u : BookUpdate) (t : Nat) (bid ask : Level)
    (hts : u.ts = some t) (hb : u.bids = .depth1 bid) (ha : u.asks = .depth1 ask) :
    applyUpdate m u .BBO =
      .ok ⟨handle_level (handle_level m.book bid.price bid.size .buy true)
             ask.price ask.size .sell true,
           some u.seq_id, some t⟩ := by
  unfold applyUpdate
  rw [hts, hb, ha]
  simp

theorem handle_ok_cases (m : BookManager) (u : BookUpdate) (ty : BookUpdateType)
    (m' : BookManager) (fl : Bool) (hok : handle_book_update m u ty = .ok (m', fl)) :
    (shouldUpdate m u ty = true ∧ fl = true ∧ applyUpdate m u ty = .ok m')
    ∨ (shouldUpdate m u ty = false ∧ m' = m ∧ fl = false) := by
  unfold handle_book_update at hok
  split at hok
  · simp at hok
  · split at hok
    · simp at hok
    · split at hok
      · cases ha : applyUpdate m u ty with
        | error e => rw [ha] at hok; simp [Except.map] at hok
        | ok mm =>
          rw [ha] at hok
          simp only [Except.map, Except.ok.injEq, Prod.mk.injEq] at hok
          exact Or.inl ⟨by assumption, hok.2.symm, by rw [hok.1]⟩
      · simp only [Except.ok.injEq, Prod.mk.injEq] at hok
        exact Or.inr ⟨by simpa using ‹¬ shouldUpdate m u ty = true›, hok.1.symm, hok.2.symm⟩

theorem applyUpdate_ok_inv (m : BookManager) (u : BookUpdate) (ty : BookUpdateType)
    (m' : BookManager) (hty : ty ≠ .BBO) (hok : applyUpdate m u ty = .ok m') :
    ∃ t, u.ts = some t ∧
      m' = ⟨apply_side .sell u.asks.toList (apply_side .buy u.bids.toList m.book),
            some u.seq_id, some t⟩ := by
  cases hts : u.ts with
  | none => unfold applyUpdate at hok; rw [hts] at hok; simp at hok
  | some t =>
    rw [applyUpdate_not_bbo m u ty t hts hty] at hok
    simp only [Except.ok.injEq] at hok
    exact ⟨t, rfl, hok.symm⟩

end ManagerLemmas

section MoreHelpers

theorem lookupPx_eq_none (p : Rat) (l : List (Rat × Rat)) (h : ∀ kv ∈ l, kv.1 ≠ p) :
    lookupPx p l = none := by
  induction l with
  | nil => rfl
  | cons kv rest ih =>
    obtain ⟨k, v⟩ := kv
    have hk : k ≠ p := h (k, v) (by simp)
    simp only [lookupPx, if_neg hk]
    exact ih (fun kv hm => h kv (List.mem_cons_of_mem _ hm))

theorem sortedDesc_head_gt (p q : Rat) (rest : List (Rat × Rat))
    (h : sortedDesc ((p, q) :: rest)) : ∀ kv ∈ rest, kv.1 < p := by
  induction rest generalizing p q with
  | nil => intro kv hm; simp at hm
  | cons kv0 rest' ih =>
    obtain ⟨k, v⟩ := kv0
    rw [sortedDesc, List.chain'_cons] at h
    intro kv hm
    rcases List.mem_cons.mp hm with hm | hm
    · rw [hm]; exact h.1
    · exact lt_trans (ih k v h.2 kv hm) h.1

theorem best_bid_handle_level_bbo (b : OrderBook) (p q : Rat) (hq : 0 < q) :
    best_bid (handle_level b p q .buy true) = some (p, q) := by
  unfold handle_level update_level handle_bbo best_bid
  simp only [not_le.mpr hq, if_false, if_true]
  exact head_filter_insertDesc p q b.bids

theorem best_ask_handle_level_bbo (b : OrderBook) (p q : Rat) (hq : 0 < q) :
    best_ask (handle_level b p q .sell true) = some (p, q) := by
  unfold handle_level update_level handle_bbo best_ask
  simp only [not_le.mpr hq, if_false, if_true]
  exact head_filter_insertAsc p q b.asks

end MoreHelpers

/-- Claim C1, counterexample: starting from bids 100↦1, 99↦2, 98↦3, the
accepted BBO update with bid level (99.5, 5) leaves the bid side holding
99.5↦5, 99↦2, 98↦3 — not the single level 99.5↦5 the claim requires: the
code's clamp keeps the worse (lower-priced) levels. -/
theorem bbo_clamp_counterexample :
    handle_book_update ⟨⟨[(100, 1), (99, 2), (98, 3)], []⟩, some 0, none⟩
        ⟨none, 1, some 0, .depth1 ⟨1000, 1⟩, .depth1 ⟨mkRat 199 2, 5⟩, some 1⟩ .BBO
      = .ok (⟨⟨[(mkRat 199 2, 5), (99, 2), (98, 3)], [(1000, 1)]⟩, some 1, some 1⟩, true)
    ∧ [((mkRat 199 2 : Rat), (5 : Rat)), (99, 2), (98, 3)] ≠ [(mkRat 199 2, 5)] :=
  ⟨rfl, by decide⟩

/-- Claim C1 as amended: on bids 100↦1, 99↦2, 98↦3, an accepted BBO-kind
update with single bid level (99.5, 5) leaves the bid side holding exactly
99.5↦5, 99↦2, 98↦3: the clamp removes every stored bid level strictly
greater than 99.5 (the superseded 100) and keeps the worse levels, composed
with inserting the new top-of-book level. -/
theorem bbo_clamp_removes_better_bids :
    (handle_level ⟨[(100, 1), (99, 2), (98, 3)], []⟩ (mkRat 199 2) 5 .buy true).bids
      = [(mkRat 199 2, 5), (99, 2), (98, 3)] := by decide

/-- Claim C2: on an update whose prev_seq_id is present and whose seq_id is
smaller, the code does not return a SequenceReset outcome — it panics via
the todo macro with message "unhandled seq reset", and last_seq is never
reset. -/
theorem seq_reset_panics :
    handle_book_update ⟨⟨[], []⟩, some 5, some 0⟩
        ⟨none, 3, some 5, .depths [], .depths [], some 0⟩ .Diff
      = .error "unhandled seq reset" := rfl

/-- Claim C3: a well-shaped update whose optional prev_seq_id is absent
does not run to completion — handle_book_update panics on the expect with
message "no prev seq" before looking at anything else. -/
theorem missing_prev_seq_panics :
    handle_book_update ⟨⟨[], []⟩, none, none⟩
        ⟨none, 1, none, .depths [], .depths [], some 0⟩ .Snapshot
      = .error "no prev seq" := rfl

/-- Claim C4, counterexample: a ladder whose best bid price equals its best
ask price (both 100) is not reported as crossed — the code compares with
strict greater-than, not greater-or-equal. -/
theorem crossed_equal_counterexample :
    best_bid ⟨[(100, 1)], [(100, 1)]⟩ = some (100, 1)
    ∧ best_ask ⟨[(100, 1)], [(100, 1)]⟩ = some (100, 1)
    ∧ crossed ⟨[(100, 1)], [(100, 1)]⟩ = false :=
  ⟨rfl, rfl, by decide⟩

/-- Claim C4 as amended: crossed() returns true if and only if both sides
of the ladder are non-empty and best_bid.price > best_ask.price strictly; a
ladder whose best bid price equals its best ask price does not count as
crossed. -/
theorem crossed_iff (b : OrderBook) :
    crossed b = true ↔ ∃ pb qb pa qa,
      best_bid b = some (pb, qb) ∧ best_ask b = some (pa, qa) ∧ pa < pb := by
  unfold crossed
  rcases hb : best_bid b with _ | ⟨pb, qb⟩ <;> rcases ha : best_ask b with _ | ⟨pa, qa⟩ <;>
    simp [hb, ha]

/-- Claim C9: handle_level with non-positive size removes the level at that
price (a no-op when absent, best_bid then reporting the next-best level),
with positive size it inserts or overwrites the level, and every operation
of the core — handle_level itself with either bbo flag, and any accepted
manager update — preserves strict positivity of all stored sizes. -/
theorem apply_level_spec (b : OrderBook) (p s : Rat) (side : Side) (bbo : Bool) :
    (s ≤ 0 → lookupSide (handle_level b p s side false) side p = none)
    ∧ (s ≤ 0 → lookupSide b side p = none → handle_level b p s side false = b)
    ∧ (0 < s → lookupSide (handle_level b p s side false) side p = some s)
    ∧ (∀ q rest, s ≤ 0 → b.bids = (p, q) :: rest → sortedDesc b.bids →
        best_bid (handle_level b p s .buy false) = rest.head?)
    ∧ (posBook b → posBook (handle_level b p s side bbo))
    ∧ (∀ (m : BookManager) (u : BookUpdate) (ty : BookUpdateType) m' fl,
        posBook m.book → handle_book_update m u ty = .ok (m', fl) → posBook m'.book) := by
  refine ⟨?_, ?_, ?_, ?_, ?_, ?_⟩
  · intro hs
    cases side <;>
      simp only [handle_level, remove_level, if_pos hs, if_neg (Bool.false_ne_true),
        lookupSide] <;>
      exact lookupPx_filter_self p _
  · intro hs habs
    cases side <;>
      simp only [handle_level, remove_level, if_pos hs, if_neg (Bool.false_ne_true)] <;>
      simp only [lookupSide] at habs <;>
      rw [filter_eq_self_of_lookup_none _ habs]
  · intro hs
    cases side <;>
      simp only [handle_level, update_level, if_neg (not_le.mpr hs),
        if_neg (Bool.false_ne_true), lookupSide]
    · exact lookupPx_insertDesc_self p s _
    · exact lookupPx_insertAsc_self p s _
  · intro q rest hs hb hsort
    rw [hb] at hsort
    simp only [handle_level, remove_level, if_pos hs, if_neg (Bool.false_ne_true), best_bid,
      hb]
    have hhead : ((p, q).1 != p) = false := by simp
    rw [List.filter_cons, hhead]
    rw [filter_eq_self_of_lookup_none rest
      (lookupPx_eq_none p rest (fun kv hm => ne_of_lt (sortedDesc_head_gt p q rest hsort kv hm)))]
    simp
  · exact posBook_handle_level b p s side bbo
  · intro m u ty m' fl
    exact posBook_handle_book_update m u ty m' fl

/-- Claim C9 witness at concrete inputs: removing price 10 with size 0 from
a one-level bid side empties the lookup, and writing size 2 at price 9
stores it. -/
theorem apply_level_spec_witness :
    ((0 : Rat) ≤ 0 ∧ lookupSide (handle_level ⟨[(10, 1)], []⟩ 10 0 .buy false) .buy 10 = none)
    ∧ ((0 : Rat) < 2 ∧ lookupSide (handle_level ⟨[(10, 1)], []⟩ 9 2 .buy false) .buy 9 = some 2) :=
  ⟨⟨by decide, (apply_level_spec ⟨[(10, 1)], []⟩ 10 0 .buy false).1 (by decide)⟩,
   ⟨by decide, (apply_level_spec ⟨[(10, 1)], []⟩ 9 2 .buy false).2.2.1 (by decide)⟩⟩

/-- Claim C5: an accepted Snapshot-kind event does not clear the ladder:
every price absent from the event's bid list keeps its bid-side level, every
price absent from the ask list keeps its ask-side level, and from a synced
state the Snapshot kind behaves exactly like the Diff kind. -/
theorem snapshot_no_clear (m : BookManager) (u : BookUpdate) (m' : BookManager) (fl : Bool)
    (hok : handle_book_update m u .Snapshot = .ok (m', fl)) :
    (∀ p, p ∉ u.bids.toList.map Level.price →
        lookupPx p m'.book.bids = lookupPx p m.book.bids)
    ∧ (∀ p, p ∉ u.asks.toList.map Level.price →
        lookupPx p m'.book.asks = lookupPx p m.book.asks)
    ∧ (∀ s, m.last_seq = some s →
        handle_book_update m u .Snapshot = handle_book_update m u .Diff) := by
  have hsame : ∀ s, m.last_seq = some s →
      handle_book_update m u .Snapshot = handle_book_update m u .Diff := by
    intro s hls
    have h1 : shouldUpdate m u .Snapshot = shouldUpdate m u .Diff := by
      simp [shouldUpdate, hls]
    have h2 : applyUpdate m u .Snapshot = applyUpdate m u .Diff := by
      unfold applyUpdate
      cases u.ts <;> simp
    unfold handle_book_update
    rw [h1, h2]
  rcases handle_ok_cases m u .Snapshot m' fl hok with ⟨_, _, happ⟩ | ⟨_, hm, _⟩
  · obtain ⟨t, _, hmeq⟩ := applyUpdate_ok_inv m u .Snapshot m' (by decide) happ
    subst hmeq
    refine ⟨?_, ?_, hsame⟩
    · intro p hp
      show lookupPx p (apply_side .sell u.asks.toList
          (apply_side .buy u.bids.toList m.book)).bids = _
      rw [apply_side_sell_bids, lookupPx_apply_side_buy _ _ _ hp]
    · intro p hp
      show lookupPx p (apply_side .sell u.asks.toList
          (apply_side .buy u.bids.toList m.book)).asks = _
      rw [lookupPx_apply_side_sell _ _ _ hp, apply_side_buy_asks]
  · subst hm
    exact ⟨fun _ _ => rfl, fun _ _ => rfl, hsame⟩

/-- Claim C5 witness: a concrete accepted Snapshot over a non-empty ladder
leaves the unmentioned bid price 9 with exactly its old level. -/
theorem snapshot_no_clear_witness :
    lookupPx 9 (⟨⟨[(10, 5), (9, 1)], [(11, 2)]⟩, some 1, some 3⟩ : BookManager).book.bids
      = lookupPx 9 (⟨⟨[(9, 1)], []⟩, none, none⟩ : BookManager).book.bids
    ∧ (9 : Rat) ∉ ((Levels.depths [⟨10, 5⟩]).toList.map Level.price) :=
  ⟨(snapshot_no_clear ⟨⟨[(9, 1)], []⟩, none, none⟩
      ⟨none, 1, some 0, .depths [⟨11, 2⟩], .depths [⟨10, 5⟩], some 3⟩
      ⟨⟨[(10, 5), (9, 1)], [(11, 2)]⟩, some 1, some 3⟩ true rfl).1 9 (by decide),
   by decide⟩

/-- Claim C6: in a synced state with last sequence s, a sequence-reset-free
event with seq_id equal to s (duplicate) or below s (stale) is dropped: the
call returns the manager unchanged with the applied flag false. -/
theorem duplicate_stale_drop (m : BookManager) (u : BookUpdate) (ty : BookUpdateType)
    (s prev : Int) (hls : m.last_seq = some s) (hp : u.prev_seq_id = some prev)
    (hnlt : ¬ u.seq_id < prev) :
    (u.seq_id = s → handle_book_update m u ty = .ok (m, false))
    ∧ (u.seq_id < s → handle_book_update m u ty = .ok (m, false)) := by
  rw [handle_book_update_eq m u ty prev hp hnlt]
  constructor
  · intro h
    have hsu : shouldUpdate m u ty = false := by simp [shouldUpdate, hls, h]
    simp [hsu]
  · intro h
    have hsu : shouldUpdate m u ty = false := by
      simp [shouldUpdate, hls, ne_of_lt h, not_lt.mpr (le_of_lt h)]
    simp [hsu]

/-- Claim C6 witness: with last_seq 5, a duplicate event (seq 5) and a
stale event (seq 3) are both dropped with the state unchanged. -/
theorem duplicate_stale_drop_witness :
    handle_book_update ⟨⟨[(10, 1)], []⟩, some 5, some 0⟩
        ⟨none, 5, some 4, .depths [], .depths [], some 9⟩ .Diff
      = .ok (⟨⟨[(10, 1)], []⟩, some 5, some 0⟩, false)
    ∧ handle_book_update ⟨⟨[(10, 1)], []⟩, some 5, some 0⟩
        ⟨none, 3, some 2, .depths [], .depths [], some 9⟩ .Diff
      = .ok (⟨⟨[(10, 1)], []⟩, some 5, some 0⟩, false) :=
  ⟨(duplicate_stale_drop ⟨⟨[(10, 1)], []⟩, some 5, some 0⟩
      ⟨none, 5, some 4, .depths [], .depths [], some 9⟩ .Diff 5 4 rfl rfl
      (by decide)).1 rfl,
   (duplicate_stale_drop ⟨⟨[(10, 1)], []⟩, some 5, some 0⟩
      ⟨none, 3, some 2, .depths [], .depths [], some 9⟩ .Diff 5 2 rfl rfl
      (by decide)).2 (by decide)⟩

/-- Claim C7: while last_seq is none, a sequence-reset-free event is
accepted exactly when its kind is Snapshot: Diff and BBO events are dropped
with the manager (and hence the empty ladder) unchanged, and a Snapshot
with a timestamp is applied. -/
theorem awaiting_snapshot (m : BookManager) (u : BookUpdate) (ty : BookUpdateType)
    (prev : Int) (hp : u.prev_seq_id = some prev) (hnlt : ¬ u.seq_id < prev)
    (hnone : m.last_seq = none) :
    (ty ≠ .Snapshot → handle_book_update m u ty = .ok (m, false))
    ∧ (∀ t, u.ts = some t → handle_book_update m u .Snapshot =
        .ok (⟨apply_side .sell u.asks.toList (apply_side .buy u.bids.toList m.book),
              some u.seq_id, some t⟩, true)) := by
  constructor
  · intro hty
    rw [handle_book_update_eq m u ty prev hp hnlt]
    have hsu : shouldUpdate m u ty = false := by simp [shouldUpdate, hnone, hty]
    simp [hsu]
  · intro t hts
    rw [handle_book_update_eq m u .Snapshot prev hp hnlt]
    have hsu : shouldUpdate m u .Snapshot = true := by simp [shouldUpdate, hnone]
    rw [applyUpdate_not_bbo m u .Snapshot t hts (by decide)]
    simp [hsu, Except.map]

/-- Claim C7 witness: from the uninitialized state a Diff is dropped
leaving the empty ladder untouched, and a Snapshot is applied. -/
theorem awaiting_snapshot_witness :
    handle_book_update ⟨⟨[], []⟩, none, none⟩
        ⟨none, 1, some 0, .depths [], .depths [⟨10, 5⟩], some 2⟩ .Diff
      = .ok (⟨⟨[], []⟩, none, none⟩, false)
    ∧ handle_book_update ⟨⟨[], []⟩, none, none⟩
        ⟨none, 1, some 0, .depths [], .depths [⟨10, 5⟩], some 2⟩ .Snapshot
      = .ok (⟨apply_side .sell (Levels.depths []).toList
                (apply_side .buy (Levels.depths [⟨10, 5⟩]).toList ⟨[], []⟩),
              some 1, some 2⟩, true) :=
  ⟨(awaiting_snapshot ⟨⟨[], []⟩, none, none⟩
      ⟨none, 1, some 0, .depths [], .depths [⟨10, 5⟩], some 2⟩ .Diff 0 rfl
      (by decide) rfl).1 (by decide),
   (awaiting_snapshot ⟨⟨[], []⟩, none, none⟩
      ⟨none, 1, some 0, .depths [], .depths [⟨10, 5⟩], some 2⟩ .Diff 0 rfl
      (by decide) rfl).2 2 rfl⟩

section StreamLemmas

theorem handle_accepts (m : BookManager) (u : BookUpdate) (ty : BookUpdateType)
    (hwf : wfEvent (u, ty)) (hacc : shouldUpdate m u ty = true) :
    ∃ m', handle_book_update m u ty = .ok (m', true) ∧ m'.last_seq = some u.seq_id := by
  obtain ⟨⟨prev, hp, hple⟩, hts, hshape⟩ := hwf
  rw [handle_book_update_eq m u ty prev hp (not_lt.mpr hple)]
  cases hts' : u.ts with
  | none => rw [hts'] at hts; simp at hts
  | some t =>
    by_cases hty : ty = .BBO
    · subst hty
      obtain ⟨⟨bid, hb⟩, ⟨ask, ha⟩⟩ := hshape rfl
      rw [applyUpdate_bbo m u t bid ask hts' hb ha]
      exact ⟨⟨handle_level (handle_level m.book bid.price bid.size .buy true)
          ask.price ask.size .sell true, some u.seq_id, some t⟩,
        by simp [hacc, Except.map], rfl⟩
    · rw [applyUpdate_not_bbo m u ty t hts' hty]
      exact ⟨⟨apply_side .sell u.asks.toList (apply_side .buy u.bids.toList m.book),
          some u.seq_id, some t⟩,
        by simp [hacc, Except.map], rfl⟩

theorem runTrace_synced (rest : List (BookUpdate × BookUpdateType)) :
    ∀ (m : BookManager) (s : Int), m.last_seq = some s →
      (∀ e ∈ rest, wfEvent e) →
      List.Chain (fun a b => a < b) s (rest.map (fun e => e.1.seq_id)) →
      runTrace m rest = .ok (rest.map (fun e => (true, some e.1.seq_id))) := by
  induction rest with
  | nil => intro m s _ _ _; rfl
  | cons e tail ih =>
    intro m s hls hwf hchain
    obtain ⟨u, ty⟩ := e
    rw [List.map_cons] at hchain
    cases hchain with
    | cons hrel hchain' =>
      have hacc : shouldUpdate m u ty = true := by
        simp [shouldUpdate, hls, ne_of_gt hrel, hrel]
      obtain ⟨m', hok, hls'⟩ := handle_accepts m u ty (hwf (u, ty) (by simp)) hacc
      show runTrace m ((u, ty) :: tail) = _
      unfold runTrace
      rw [hok]
      have hres := ih m' u.seq_id hls' (fun e he => hwf e (List.mem_cons_of_mem _ he)) hchain'
      simp [hres, Except.map, hls']

end StreamLemmas

/-- Claim C8: a stream that begins with a well-shaped Snapshot and whose
sequence ids strictly increase is applied in full: every event comes back
with the applied flag, and after each event last_seq equals that event's
seq_id. -/
theorem monotonic_acceptance (m0 : BookManager) (u0 : BookUpdate)
    (rest : List (BookUpdate × BookUpdateType))
    (hm : m0.last_seq = none)
    (hwf0 : wfEvent (u0, .Snapshot))
    (hwf : ∀ e ∈ rest, wfEvent e)
    (hinc : List.Chain (fun a b => a < b) u0.seq_id (rest.map (fun e => e.1.seq_id))) :
    runTrace m0 ((u0, .Snapshot) :: rest) =
      .ok ((true, some u0.seq_id) :: rest.map (fun e => (true, some e.1.seq_id))) := by
  have hacc : shouldUpdate m0 u0 .Snapshot = true := by simp [shouldUpdate, hm]
  obtain ⟨m1, hok, hls1⟩ := handle_accepts m0 u0 .Snapshot hwf0 hacc
  unfold runTrace
  rw [hok]
  have hres := runTrace_synced rest m1 u0.seq_id hls1 hwf hinc
  simp [hres, Except.map, hls1]

/-- Claim C8 witness: a concrete Snapshot (seq 1) followed by a Diff
(seq 2) is applied in full with last_seq tracking each seq_id. -/
theorem monotonic_acceptance_witness :
    runTrace ⟨⟨[], []⟩, none, none⟩
        [(⟨none, 1, some 0, .depths [], .depths [⟨10, 5⟩], some 1⟩, .Snapshot),
         (⟨none, 2, some 1, .depths [], .depths [], some 2⟩, .Diff)]
      = .ok [(true, some 1), (true, some 2)] :=
  monotonic_acceptance ⟨⟨[], []⟩, none, none⟩
    ⟨none, 1, some 0, .depths [], .depths [⟨10, 5⟩], some 1⟩
    [(⟨none, 2, some 1, .depths [], .depths [], some 2⟩, .Diff)]
    rfl
    ⟨⟨0, rfl, by decide⟩, rfl, fun h => nomatch h⟩
    (fun e he => by
      rw [List.mem_singleton] at he
      subst he
      exact ⟨⟨1, rfl, by decide⟩, rfl, fun h => nomatch h⟩)
    (List.Chain.cons (by decide) List.Chain.nil)

/-- Claim C10: after an accepted BBO event carrying bid level (pb, qb) and
ask level (pa, qa) with positive sizes, best_bid is exactly (pb, qb) and
best_ask is exactly (pa, qa), whatever the ladder held before. -/
theorem bbo_establishes_top (m : BookManager) (u : BookUpdate) (m' : BookManager)
    (pb qb pa qa : Rat) (hb : u.bids = .depth1 ⟨pb, qb⟩) (ha : u.asks = .depth1 ⟨pa, qa⟩)
    (hqb : 0 < qb) (hqa : 0 < qa)
    (hok : handle_book_update m u .BBO = .ok (m', true)) :
    best_bid m'.book = some (pb, qb) ∧ best_ask m'.book = some (pa, qa) := by
  rcases handle_ok_cases m u .BBO m' true hok with ⟨_, _, happ⟩ | ⟨_, _, hfl⟩
  · cases hts : u.ts with
    | none => unfold applyUpdate at happ; rw [hts] at happ; simp at happ
    | some t =>
      rw [applyUpdate_bbo m u t ⟨pb, qb⟩ ⟨pa, qa⟩ hts hb ha] at happ
      simp only [Except.ok.injEq] at happ
      rw [← happ]
      constructor
      · show best_bid (handle_level (handle_level m.book pb qb .buy true)
            pa qa .sell true) = some (pb, qb)
        rw [best_bid, handle_level_sell_bids, ← best_bid]
        exact best_bid_handle_level_bbo m.book pb qb hqb
      · exact best_ask_handle_level_bbo _ pa qa hqa
  · exact absurd hfl (by decide)

/-- Claim C10 witness: a concrete accepted BBO event with bid (10, 2) and
ask (11, 3) makes those the exact top of book. -/
theorem bbo_establishes_top_witness :
    best_bid (⟨⟨[(10, 2)], [(11, 3)]⟩, some 1, some 7⟩ : BookManager).book = some (10, 2)
    ∧ best_ask (⟨⟨[(10, 2)], [(11, 3)]⟩, some 1, some 7⟩ : BookManager).book = some (11, 3) :=
  bbo_establishes_top ⟨⟨[(100, 9)], [(1, 8)]⟩, some 0, none⟩
    ⟨none, 1, some 0, .depth1 ⟨11, 3⟩, .depth1 ⟨10, 2⟩, some 7⟩
    ⟨⟨[(10, 2)], [(11, 3)]⟩, some 1, some 7⟩
    10 2 11 3 rfl rfl (by decide) (by decide) rfl

end OkxBook
